import Mathlib

/-!
Shallow embedding of the promwatch per-collector polling engine, and proofs
of the specification's claims about it.

Conventions of the embedding:
- Go strings are Lean `String`s; where Go indexes or slices by byte we work
  on `String.data` (`List Char`), which agrees with Go for the ASCII
  identifiers the code manipulates.
- Go maps become functions to `Option` (assignment = pointwise update, so
  later writes win), or association lists where the code iterates over the
  map; iteration order of a Go map is unspecified, so no claim proved here
  depends on the chosen list order.
- Fallible Go functions returning `(T, error)` become `Except Unit T`;
  code that can additionally panic at runtime (out-of-range slice or index)
  returns `GoOutcome T`, whose `crash` constructor marks the panic.
- `float64` sample values are never computed with by any claim; the
  `values` field stands in for that opaque payload.
-/

/-- Outcome of running a piece of Go code that may return a value, return an
error, or panic at runtime (out-of-range slice or index access). -/
inductive GoOutcome (α : Type) where
  | ok (a : α)
  | err
  | crash
deriving DecidableEq

/-- Snapshot store (`store.go`, `naiveStore`): two buffers, the accumulating
`internal` one and the published `view`. The mutex only serializes the
methods; each method body is modelled as the pure state transformer below. -/
structure NaiveStore where
  internal : String
  view : String
deriving DecidableEq

/-- Constructor `NewStore` (store.go): both buffers start empty. -/
def NewStore : NaiveStore :=
  { internal := "", view := "" }

/-- Method `naiveStore.Add`: appends a string to the accumulating buffer. -/
def NaiveStore.add (s : NaiveStore) (str : String) : NaiveStore :=
  { s with internal := s.internal ++ str }

/-- Method `naiveStore.String`: returns the published buffer. -/
def NaiveStore.toStr (s : NaiveStore) : String :=
  s.view

/-- Method `naiveStore.Commit`: swaps the two buffers, then resets the (new)
accumulating buffer: `s.internal, s.view = s.view, s.internal; s.internal.Reset()`. -/
def NaiveStore.commit (s : NaiveStore) : NaiveStore :=
  { internal := "", view := s.internal }

/-- A caller-serialized sequence of `Add` calls. -/
def NaiveStore.addAll (s : NaiveStore) (xs : List String) : NaiveStore :=
  xs.foldl NaiveStore.add s

/-- Concatenation of a list of strings in order (the spec's "concatenation
of everything added"). -/
def concatAll : List String → String
  | [] => ""
  | x :: xs => x ++ concatAll xs

/-- Type `TagFilter` (glue.go): a key/value pair to filter resources by tag. -/
structure TagFilter where
  key : String
  value : String
deriving DecidableEq

/-- An autoscaling group as `filter` (asg_collector.go) consumes it: only its
tag list matters there; each tag is a (key, value) pair (the Go `*string`
fields dereferenced). -/
structure AutoScalingGroup where
  tags : List (String × String)
deriving DecidableEq

/-- Lookup in the Go map built by `for _, g := range g.Tags { tagMap[*g.Key] = *g.Value }`
(asg_collector.go:72-75): assignment overwrites, so the LAST tag with the
key wins. The recursion consults the later entries first. -/
def tagMapGet (tags : List (String × String)) (k : String) : Option String :=
  match tags with
  | [] => none
  | (k', v) :: rest =>
    match tagMapGet rest k with
    | some v' => some v'
    | none => if k' = k then some v else none

/-- Inner loop of `filter` (asg_collector.go:78-89): every filter tag must be
found in the tag map with the exact value, otherwise `continue outer`. -/
def matchFilters (tags : List (String × String)) : List TagFilter → Bool
  | [] => true
  | f :: rest =>
    match tagMapGet tags f.key with
    | none => false
    | some v => if v = f.value then matchFilters tags rest else false

/-- Function `filter` (asg_collector.go:63-98): keeps a group when it has at least as
many tags as there are filters and every filter matches the group's tag map. -/
def filter (groups : List AutoScalingGroup) (tf : List TagFilter) : List AutoScalingGroup :=
  match groups with
  | [] => []
  | g :: gs =>
    if tf.length ≤ g.tags.length ∧ matchFilters g.tags tf = true then
      g :: filter gs tf
    else
      filter gs tf

/-- Character-level body of `escapeValue` (glue.go:237-243).
`strings.NewReplacer` performs ONE left-to-right pass over the input,
replacing each occurrence of a pattern and never rescanning its own output;
with the two single-character patterns this is a per-character substitution:
`"` becomes `\"` and `\` becomes `\\`. -/
def escapeChars : List Char → List Char
  | [] => []
  | c :: rest =>
    (if c = '"' then ['\\', '"'] else if c = '\\' then ['\\', '\\'] else [c]) ++ escapeChars rest

/-- Function `escapeValue` (glue.go:237-243). -/
def escapeValue (s : String) : String :=
  String.mk (escapeChars s.data)

/-- First pass of the claim's reading of `escapeValue`: replace every `"`
by `\"`. -/
def replaceQuoteChars : List Char → List Char
  | [] => []
  | c :: rest =>
    (if c = '"' then ['\\', '"'] else [c]) ++ replaceQuoteChars rest

/-- Second pass of the claim's reading of `escapeValue`: replace every `\`
by `\\`. -/
def replaceBackslashChars : List Char → List Char
  | [] => []
  | c :: rest =>
    (if c = '\\' then ['\\', '\\'] else [c]) ++ replaceBackslashChars rest

/-- Sequential two-pass substitution, following the claim's words: first
every `"` is replaced by `\"`, then, in a second pass over that intermediate
result, every `\` is replaced by `\\` (so the second pass also rewrites
backslashes introduced by the first). Stated only to compare with
`escapeValue`. -/
def escapeValueSeq (s : String) : String :=
  String.mk (replaceBackslashChars (replaceQuoteChars s.data))

/-- Modelled from the spec: a conformant exposition-format reader of label
values, reading `\"` as `"` and `\\` as `\` and any other character
literally. This is the external parser of the round-trip claim; it is not
code of this repository. -/
def unescapeChars : List Char → List Char
  | [] => []
  | [c] => [c]
  | c1 :: c2 :: rest =>
    if c1 = '\\' ∧ (c2 = '"' ∨ c2 = '\\') then c2 :: unescapeChars rest
    else c1 :: unescapeChars (c2 :: rest)

/-- Modelled from the spec: string-level wrapper of `unescapeChars`. -/
def unescapeValue (s : String) : String :=
  String.mk (unescapeChars s.data)

/-- Decimal digits of a natural number, most significant first: the
rendering `fmt.Sprintf("%d", i)` produces for a non-negative integer. -/
def natDigits (n : Nat) : List Char :=
  if n < 10 then [Char.ofNat (48 + n)]
  else natDigits (n / 10) ++ [Char.ofNat (48 + n % 10)]
decreasing_by omega

/-- Value of a decimal digit string, used to invert `natDigits`. -/
def digitsVal (l : List Char) : Nat :=
  l.foldl (fun a c => a * 10 + (c.toNat - 48)) 0

/-- Query id built by `makeQueries` (asg_collector.go:709):
`fmt.Sprintf("%s_%s_%d", "id", id, i)`. -/
def mkId (rid : String) (i : Nat) : String :=
  "id" ++ "_" ++ rid ++ "_" ++ String.mk (natDigits i)

/-- Type `resourcegroupstaggingapi.ResourceTagMapping` as the collectors use it:
the resource ARN and its tags (pointers dereferenced). -/
structure ResourceTagMapping where
  resourceARN : String
  tags : List (String × String)
deriving DecidableEq

/-- Type `cloudwatch.Dimension` (pointers dereferenced). -/
structure Dimension where
  name : String
  value : String
deriving DecidableEq

/-- Type `MetricStat` (glue.go:169-172): a metric name and a statistic kind. -/
structure MetricStat where
  metricName : String
  stat : String
deriving DecidableEq

/-- Type `cloudwatch.MetricDataQuery` as `makeQueries` builds it
(asg_collector.go:708-719), with the nested `MetricStat`/`Metric` structs
flattened: id, metric name, stat, dimensions, period and namespace. -/
structure MetricDataQuery where
  id : String
  metricName : String
  stat : String
  dimensions : List Dimension
  period : Int
  ns : String
deriving DecidableEq

/-- Inner loop of `makeQueries` (asg_collector.go:702-722): one pass over the
enumerated configured metric/stat pairs for one resource. A failing
dimension derivation skips the pair and counts one handled error
(`b.HandleError`); the second component is that error count. -/
def pairQueries (rid : String) (r : ResourceTagMapping)
    (dim : ResourceTagMapping → Except Unit (List Dimension)) (period : Int) (ns : String) :
    List (Nat × MetricStat) → List MetricDataQuery × Nat
  | [] => ([], 0)
  | (i, s) :: rest =>
    let p := pairQueries rid r dim period ns rest
    match dim r with
    | .error _ => (p.1, p.2 + 1)
    | .ok d =>
      ({ id := mkId rid i, metricName := s.metricName, stat := s.stat,
         dimensions := d, period := period, ns := ns } :: p.1, p.2)

/-- Function `makeQueries` (asg_collector.go:699-726): for every resource of the index
(`index.Resources`, modelled as an association list keyed by the resource
id) and every configured metric/stat pair in order, emit one query; count
handled dimension errors in the second component. -/
def makeQueries (stats : List MetricStat)
    (dim : ResourceTagMapping → Except Unit (List Dimension)) (period : Int) (ns : String) :
    List (String × ResourceTagMapping) → List MetricDataQuery × Nat
  | [] => ([], 0)
  | (rid, r) :: rest =>
    let q := pairQueries rid r dim period ns stats.enum
    let m := makeQueries stats dim period ns rest
    (q.1 ++ m.1, q.2 + m.2)

/-- Constant `MaxMetricDataQueryItems` (client.go:19). -/
def MaxMetricDataQueryItems : Nat := 500

/-- Constant `TimestampAscending` (glue.go:23). -/
def TimestampAscending : String := "TimestampAscending"

/-- Type `cloudwatch.GetMetricDataInput` as `getMetricDataInput` fills it. Times
are epoch seconds. -/
structure GetMetricDataInput where
  endTime : Int
  startTime : Int
  scanBy : String
  metricDataQueries : List MetricDataQuery
deriving DecidableEq

/-- Batching loop of `getMetricDataInput` (asg_collector.go:739-757):
`for i := 0; i < len(dataQuery); i += MaxMetricDataQueryItems` slices
`dataQuery[i:min(i+500,len)]`, i.e. repeatedly takes the next at-most-500
queries. An empty list yields no chunk. -/
def chunkQueries {α : Type} : List α → List (List α)
  | [] => []
  | x :: xs =>
    (x :: xs).take MaxMetricDataQueryItems :: chunkQueries ((x :: xs).drop MaxMetricDataQueryItems)
termination_by l => l.length
decreasing_by simp [List.length_drop, MaxMetricDataQueryItems]; omega

/-- Window computation and chunk wrapping of `getMetricDataInput`
(asg_collector.go:735-757): every chunk becomes one input sharing
`endTime = now - offset` and `startTime = endTime - interval`. -/
def chunkInputs (dataQuery : List MetricDataQuery) (offset interval now : Int) :
    List GetMetricDataInput :=
  (chunkQueries dataQuery).map fun c =>
    { endTime := now - offset, startTime := now - offset - interval,
      scanBy := TimestampAscending, metricDataQueries := c }

/-- Function `getMetricDataInput` (asg_collector.go:731-760): build the cycle's
queries with `makeQueries`, then batch them; the second component carries
the handled-error count of `makeQueries`. -/
def getMetricDataInput (resources : List (String × ResourceTagMapping))
    (stats : List MetricStat) (dim : ResourceTagMapping → Except Unit (List Dimension))
    (offset interval period : Int) (ns : String) (now : Int) :
    List GetMetricDataInput × Nat :=
  let dq := makeQueries stats dim period ns resources
  (chunkInputs dq.1 offset interval now, dq.2)

/-- Type `cloudwatch.MetricDataResult`: a query id with parallel timestamp and
value lists. The `float64` sample values are opaque to every claim, so an
integer stands in for that payload. -/
structure MetricDataResult where
  id : String
  timestamps : List Int
  values : List Int
deriving DecidableEq

/-- Type `ResourceIndex` (glue.go:249-256): queries and results keyed by id, and
the resources of the cycle (a Go map iterated by the collectors, modelled
as an association list). -/
structure ResourceIndex where
  queries : String → List MetricDataQuery
  results : String → Option MetricDataResult
  resources : List (String × ResourceTagMapping)

/-- Method `ResourceIndex.AddResults` (glue.go:280-284): store every result in the
result map keyed by its id — `i.Results[*r.Id] = r` for each, in order, with
no check against the cycle's queries. -/
def ResourceIndex.addResults (i : ResourceIndex) (res : List MetricDataResult) : ResourceIndex :=
  { i with
    results := res.foldl (fun m r => fun k => if k = r.id then some r else m k) i.results }

/-- The five named components of a parsed ARN
(`arn:partition:service:region:account-id:resource`). -/
structure ARN where
  partition : String
  service : String
  region : String
  accountID : String
  resource : String
deriving DecidableEq

/-- Model of `strings.SplitN(s, ":", n)` on the character list of `s`: at most `n`
parts, the last part keeping any remaining colons. `n = 0` yields no part. -/
def splitNChars (n : Nat) (l : List Char) : List (List Char) :=
  match n with
  | 0 => []
  | 1 => [l]
  | m + 2 =>
    match l with
    | [] => [[]]
    | c :: rest =>
      if c = ':' then [] :: splitNChars (m + 1) rest
      else
        match splitNChars (m + 2) rest with
        | [] => [[c]]
        | p :: ps => (c :: p) :: ps

/-- Model of `strings.Split(s, ":")` on the character list of `s`: split at every
colon; the empty string gives one empty part. -/
def splitAllChars : List Char → List (List Char)
  | [] => [[]]
  | c :: rest =>
    if c = ':' then [] :: splitAllChars rest
    else
      match splitAllChars rest with
      | [] => [[c]]
      | p :: ps => (c :: p) :: ps

/-- Model of `arn.Parse` of the AWS SDK (external collaborator, modelled from its
documented behaviour): require the `arn:` prefix, split into exactly 6
colon-separated sections (`SplitN(s, ":", 6)`), and name sections 1-5. -/
def arnParse (s : String) : Except Unit ARN :=
  match s.data with
  | 'a' :: 'r' :: 'n' :: ':' :: _ =>
    let sections := splitNChars 6 s.data
    if h : sections.length = 6 then
      Except.ok
        { partition := String.mk (sections.get ⟨1, by omega⟩),
          service := String.mk (sections.get ⟨2, by omega⟩),
          region := String.mk (sections.get ⟨3, by omega⟩),
          accountID := String.mk (sections.get ⟨4, by omega⟩),
          resource := String.mk (sections.get ⟨5, by omega⟩) }
    else Except.error ()
  | _ => Except.error ()

/-- Function `asgMetricDimension` (asg_collector.go:104-116): parse the ARN (error →
`ErrCanNotParseARN`), then slice `arn.Resource[75:]`. A Go slice `s[75:]`
panics when `len(s) < 75`; the model returns `crash` there. -/
def asgMetricDimension (resource : ResourceTagMapping) : GoOutcome (List Dimension) :=
  match arnParse resource.resourceARN with
  | .error _ => .err
  | .ok a =>
    if 75 ≤ a.resource.data.length then
      .ok [{ name := "AutoScalingGroupName", value := String.mk (a.resource.data.drop 75) }]
    else .crash

/-- Function `cacheNodeMetricDimension` (ec_host_collector.go:111-128): parse the ARN,
split its resource section on `:`, and index parts 1 and 2. The index
expressions `val[1]`/`val[2]` panic when fewer than three parts exist; the
model returns `crash` there. -/
def cacheNodeMetricDimension (resource : ResourceTagMapping) : GoOutcome (List Dimension) :=
  match arnParse resource.resourceARN with
  | .error _ => .err
  | .ok a =>
    let val := splitAllChars a.resource.data
    if h : 2 < val.length then
      .ok [{ name := "CacheClusterId", value := String.mk (val.get ⟨1, by omega⟩) },
           { name := "CacheNodeId", value := String.mk (val.get ⟨2, h⟩) }]
    else .crash

/-- The two telemetry counters `AWSClient.GetMetricData` touches
(client.go): the error counter and the fetched-page counter. -/
structure CollectorTelemetry where
  errorCount : Nat
  getMetricDataCount : Nat
deriving DecidableEq

/-- One batch's pagination loop inside `AWSClient.GetMetricData`
(client.go:331-363): consume page outcomes in order; a successful page is
appended to the shared result slice and counted; the first error logs,
increments the error counter and ends the batch, keeping what was already
appended. -/
def runPages (tele : CollectorTelemetry) (acc : List MetricDataResult) :
    List (Except Unit (List MetricDataResult)) → List MetricDataResult × CollectorTelemetry
  | [] => (acc, tele)
  | .error _ :: _ => (acc, { tele with errorCount := tele.errorCount + 1 })
  | .ok page :: rest =>
    runPages { tele with getMetricDataCount := tele.getMetricDataCount + 1 } (acc ++ page) rest

/-- Join of the per-batch goroutines of `AWSClient.GetMetricData`: all
batches run and their appends interleave under the mutex; the aggregate
result multiset is order-independent, and the model fixes batch order. -/
def getMetricDataAux (acc : List MetricDataResult) (tele : CollectorTelemetry) :
    List (List (Except Unit (List MetricDataResult))) → List MetricDataResult × CollectorTelemetry
  | [] => (acc, tele)
  | b :: rest =>
    let p := runPages tele acc b
    getMetricDataAux p.1 p.2 rest

/-- Function `AWSClient.GetMetricData` (client.go:331-363): run every batch,
aggregate all successfully fetched pages, and return with a nil error
unconditionally. -/
def getMetricData (batches : List (List (Except Unit (List MetricDataResult))))
    (tele : CollectorTelemetry) : Except Unit (List MetricDataResult) × CollectorTelemetry :=
  let p := getMetricDataAux [] tele batches
  (Except.ok p.1, p.2)

/-- Pages a batch actually contributes: everything before its first error. -/
def okPagesConcat : List (Except Unit (List MetricDataResult)) → List MetricDataResult
  | [] => []
  | .error _ :: _ => []
  | .ok page :: rest => page ++ okPagesConcat rest

/-- Whether a page outcome is an error (a batch containing one fails). -/
def pageIsErr : Except Unit (List MetricDataResult) → Bool
  | .error _ => true
  | .ok _ => false

/-! ## Theorems -/

theorem addAll_state (s : NaiveStore) (xs : List String) :
    (s.addAll xs).internal = s.internal ++ concatAll xs ∧ (s.addAll xs).view = s.view := by
  induction xs generalizing s with
  | nil => simp [NaiveStore.addAll, concatAll]
  | cons x rest ih =>
    have h := ih (s.add x)
    simp only [NaiveStore.addAll, List.foldl_cons] at h ⊢
    refine ⟨?_, h.2⟩
    rw [h.1]
    simp [NaiveStore.add, concatAll, String.append_assoc]

/-- C1: for the snapshot store, before the first Commit `String()` is empty;
after a caller-serialized sequence of `Add`s from a post-commit state
(accumulating buffer empty), `String()` before the `Commit` still returns
the previously published value, right after the `Commit` it returns exactly
the concatenation of everything added, and the accumulating buffer is empty
right after the `Commit`. -/
theorem naiveStore_snapshot_cycle (s : NaiveStore) (xs : List String)
    (h : s.internal = "") :
    NewStore.toStr = ""
    ∧ (s.addAll xs).toStr = s.toStr
    ∧ ((s.addAll xs).commit).toStr = concatAll xs
    ∧ ((s.addAll xs).commit).internal = "" := by
  have hs := addAll_state s xs
  refine ⟨rfl, hs.2, ?_, rfl⟩
  simp [NaiveStore.commit, NaiveStore.toStr, hs.1, h]

/-- C1 witness: scenario A of the spec, run from a post-commit state. -/
theorem naiveStore_snapshot_cycle_witness :
    NewStore.toStr = ""
    ∧ ((NaiveStore.mk "" "old").addAll ["This is a test", "X"]).toStr
        = (NaiveStore.mk "" "old").toStr
    ∧ (((NaiveStore.mk "" "old").addAll ["This is a test", "X"]).commit).toStr
        = concatAll ["This is a test", "X"]
    ∧ (((NaiveStore.mk "" "old").addAll ["This is a test", "X"]).commit).internal = "" :=
  naiveStore_snapshot_cycle (NaiveStore.mk "" "old") ["This is a test", "X"] rfl

/-- C10: `Commit` is not idempotent: from every store state, two `Commit`s
with no interleaved `Add` publish the empty string, and likewise when only
the empty string is added in between (what `storeResults` does on a cycle
producing no output lines). -/
theorem commit_twice_yields_empty (s : NaiveStore) :
    ((s.commit).commit).toStr = "" ∧ (((s.commit).add "").commit).toStr = "" := by
  constructor
  · rfl
  · simp [NaiveStore.commit, NaiveStore.add, NaiveStore.toStr]

theorem escapeChars_append (l₁ l₂ : List Char) :
    escapeChars (l₁ ++ l₂) = escapeChars l₁ ++ escapeChars l₂ := by
  induction l₁ with
  | nil => simp [escapeChars]
  | cons c rest ih => simp [escapeChars, ih]

/-- C4 counterexample: on the one-character input `"` the code's replacer
yields `\"`, while the claim's two sequential passes would yield `\\"`. -/
theorem escapeValue_sequential_counterexample :
    escapeValue "\"" = "\\\""
    ∧ escapeValueSeq "\"" = "\\\\\""
    ∧ escapeValue "\"" ≠ escapeValueSeq "\"" := by
  refine ⟨?_, ?_, ?_⟩ <;> decide

/-- C4 amended: `escapeValue` applies the two substitutions in one
simultaneous left-to-right pass — homomorphic on concatenation, sending `"`
to `\"`, `\` to `\\` and every other character to itself — never rewriting
the backslashes it has itself produced. -/
theorem escapeValue_single_pass_amended (a b : String) (c : Char)
    (h1 : c ≠ '"') (h2 : c ≠ '\\') :
    escapeValue (a ++ b) = escapeValue a ++ escapeValue b
    ∧ escapeValue "\"" = "\\\""
    ∧ escapeValue "\\" = "\\\\"
    ∧ escapeValue (String.mk [c]) = String.mk [c] := by
  refine ⟨?_, by decide, by decide, ?_⟩
  · apply String.ext
    simp [escapeValue, String.data_append, escapeChars_append]
  · simp [escapeValue, escapeChars, h1, h2]

/-- C4 witness: the amended statement at concrete inputs. -/
theorem escapeValue_single_pass_amended_witness :
    escapeValue ("x" ++ "y") = escapeValue "x" ++ escapeValue "y"
    ∧ escapeValue "\"" = "\\\""
    ∧ escapeValue "\\" = "\\\\"
    ∧ escapeValue (String.mk ['z']) = String.mk ['z'] :=
  escapeValue_single_pass_amended "x" "y" 'z' (by decide) (by decide)

theorem unescapeChars_cons_ne (c : Char) (l : List Char) (h : c ≠ '\\') :
    unescapeChars (c :: l) = c :: unescapeChars l := by
  cases l with
  | nil => rfl
  | cons d ds => simp [unescapeChars, h]

theorem unescape_escape_chars (l : List Char) :
    unescapeChars (escapeChars l) = l := by
  induction l with
  | nil => rfl
  | cons c rest ih =>
    by_cases hq : c = '"'
    · subst hq
      simp [escapeChars, unescapeChars, ih]
    · by_cases hb : c = '\\'
      · subst hb
        simp [escapeChars, unescapeChars, ih]
      · simp only [escapeChars, if_neg hq, if_neg hb, List.singleton_append]
        rw [unescapeChars_cons_ne c _ hb, ih]

/-- C5: label escaping round-trips — a conformant exposition-format reader
recovers the original tag value from `escapeValue`'s output for every input
(including values containing `"` and `\`), and `escapeValue` is injective. -/
theorem escapeValue_roundtrip :
    (∀ s : String, unescapeValue (escapeValue s) = s) ∧ Function.Injective escapeValue := by
  have h : ∀ s : String, unescapeValue (escapeValue s) = s := by
    intro s
    apply String.ext
    exact unescape_escape_chars s.data
  exact ⟨h, Function.LeftInverse.injective h⟩

theorem matchFilters_iff (tags : List (String × String)) (tf : List TagFilter) :
    matchFilters tags tf = true ↔ ∀ f ∈ tf, tagMapGet tags f.key = some f.value := by
  induction tf with
  | nil => simp [matchFilters]
  | cons f rest ih =>
    simp only [matchFilters, List.forall_mem_cons]
    cases hv : tagMapGet tags f.key with
    | none => simp [hv]
    | some v =>
      by_cases he : v = f.value
      · subst he
        simp [hv, ih]
      · simp [hv, he]

theorem mem_filter_iff (groups : List AutoScalingGroup) (tf : List TagFilter)
    (g : AutoScalingGroup) :
    g ∈ filter groups tf ↔
      g ∈ groups ∧ tf.length ≤ g.tags.length ∧ matchFilters g.tags tf = true := by
  induction groups with
  | nil => simp [filter]
  | cons a gs ih =>
    by_cases hc : tf.length ≤ a.tags.length ∧ matchFilters a.tags tf = true
    · simp only [filter, if_pos hc, List.mem_cons, ih]
      constructor
      · rintro (rfl | ⟨hg, hrest⟩)
        · exact ⟨Or.inl rfl, hc.1, hc.2⟩
        · exact ⟨Or.inr hg, hrest⟩
      · rintro ⟨(rfl | hg), hrest⟩
        · exact Or.inl rfl
        · exact Or.inr ⟨hg, hrest⟩
    · simp only [filter, if_neg hc, ih, List.mem_cons]
      constructor
      · rintro ⟨hg, hrest⟩
        exact ⟨Or.inr hg, hrest⟩
      · rintro ⟨(rfl | hg), h1, h2⟩
        · exact absurd ⟨h1, h2⟩ hc
        · exact ⟨hg, h1, h2⟩

/-- C3 counterexample: a group with tags `[(k,v), (k,w)]` — it does have a
tag with key `k` and value `v` for the single filter `{k,v}`, yet `filter`
drops it, because the Go tag map keeps only the LAST value for a key. -/
theorem filter_tag_matching_counterexample :
    (∀ f ∈ [TagFilter.mk "k" "v"],
      ∃ p ∈ (AutoScalingGroup.mk [("k", "v"), ("k", "w")]).tags,
        p.1 = f.key ∧ p.2 = f.value)
    ∧ filter [AutoScalingGroup.mk [("k", "v"), ("k", "w")]] [TagFilter.mk "k" "v"] = [] := by
  refine ⟨?_, ?_⟩ <;> decide

/-- C3 amended: `filter` keeps a resource iff it has at least as many tags
as there are filters and, for every filter `{k,v}`, the Go tag map built
from the resource's tag list (later tags overwrite earlier ones with the
same key) maps `k` to `v`. When every tag key is distinct this coincides
with "has a tag with key k and value v". An empty filter set keeps every
resource, and a resource with fewer tags than filters is never kept. -/
theorem filter_tag_matching_amended (groups : List AutoScalingGroup)
    (tf : List TagFilter) (g : AutoScalingGroup) :
    (g ∈ filter groups tf ↔
      g ∈ groups ∧ tf.length ≤ g.tags.length
        ∧ (∀ f ∈ tf, tagMapGet g.tags f.key = some f.value))
    ∧ filter groups [] = groups
    ∧ (g.tags.length < tf.length → g ∉ filter groups tf) := by
  refine ⟨?_, ?_, ?_⟩
  · rw [mem_filter_iff, matchFilters_iff]
  · induction groups with
    | nil => rfl
    | cons a gs ih => simp [filter, matchFilters, ih]
  · intro hlen hg
    have h := (mem_filter_iff groups tf g).mp hg
    omega

theorem addResults_map_lookup (m : String → Option MetricDataResult)
    (res : List MetricDataResult) (k : String) :
    res.foldl (fun m r => fun k' => if k' = r.id then some r else m k') m k
      = (res.reverse.find? fun r => r.id == k).elim (m k) some := by
  induction res generalizing m with
  | nil => simp
  | cons r rs ih =>
    simp only [List.foldl_cons, List.reverse_cons, List.find?_append, ih]
    cases hf : rs.reverse.find? fun r => r.id == k with
    | some v => simp
    | none =>
      simp only [Option.none_or, Option.elim]
      by_cases h : k = r.id
      · simp [List.find?, h]
      · have hb : (r.id == k) = false := by
          simp [Ne.symm h]
        simp [List.find?, hb, h]

/-- C6 counterexample: an index whose cycle built no queries at all; after
`AddResults` of a result with id `x`, the result map DOES contain an entry
for `x`, so the result map is not restricted to ids of the cycle's queries,
and the orphan is stored rather than dropped. -/
theorem addResults_orphan_counterexample :
    ((ResourceIndex.mk (fun _ => []) (fun _ => none) []).addResults
        [MetricDataResult.mk "x" [] []]).results "x" = some (MetricDataResult.mk "x" [] [])
    ∧ (ResourceIndex.mk (fun _ => []) (fun _ => none) []).queries "x" = [] := by
  constructor
  · simp [ResourceIndex.addResults]
  · rfl

/-- C6 amended: `AddResults` stores EVERY result in the result map keyed by
its id — orphaned results included, with the last result winning for a
duplicated id — and leaves the queries and resources of the index unchanged.
(Orphans are not logged here; the warning in `storeResults` concerns the
opposite case, a query id with no result.) -/
theorem addResults_orphans_amended (i : ResourceIndex) (res : List MetricDataResult)
    (k : String) :
    (i.addResults res).results k
      = (res.reverse.find? fun r => r.id == k).elim (i.results k) some
    ∧ (i.addResults res).queries = i.queries
    ∧ (i.addResults res).resources = i.resources :=
  ⟨addResults_map_lookup i.results res k, rfl, rfl⟩

theorem runPages_spec (b : List (Except Unit (List MetricDataResult)))
    (tele : CollectorTelemetry) (acc : List MetricDataResult) :
    (runPages tele acc b).1 = acc ++ okPagesConcat b
    ∧ (runPages tele acc b).2.errorCount
        = tele.errorCount + (if b.any pageIsErr then 1 else 0) := by
  induction b generalizing tele acc with
  | nil => simp [runPages, okPagesConcat]
  | cons p rest ih =>
    cases p with
    | error e => simp [runPages, okPagesConcat, pageIsErr]
    | ok page =>
      have h := ih { tele with getMetricDataCount := tele.getMetricDataCount + 1 } (acc ++ page)
      simp only [runPages, okPagesConcat, List.any_cons, pageIsErr, Bool.false_or]
      exact ⟨by rw [h.1, List.append_assoc], h.2⟩

theorem getMetricDataAux_spec (batches : List (List (Except Unit (List MetricDataResult))))
    (acc : List MetricDataResult) (tele : CollectorTelemetry) :
    (getMetricDataAux acc tele batches).1 = acc ++ batches.flatMap okPagesConcat
    ∧ (getMetricDataAux acc tele batches).2.errorCount
        = tele.errorCount + batches.countP (fun b => b.any pageIsErr) := by
  induction batches generalizing acc tele with
  | nil => simp [getMetricDataAux]
  | cons b rest ih =>
    have hb := runPages_spec b tele acc
    have hr := ih (runPages tele acc b).1 (runPages tele acc b).2
    simp only [getMetricDataAux, List.flatMap_cons, List.countP_cons]
    refine ⟨by rw [hr.1, hb.1, List.append_assoc], ?_⟩
    rw [hr.2, hb.2]
    by_cases hp : b.any pageIsErr
    · simp only [hp, if_true]
      omega
    · simp [hp]

/-- C9 counterexample: a single batch whose first page succeeds with one
result and whose second page fails. The batch failed (error counter reads 1)
yet the returned collection contains that result — a failed batch does not
always contribute zero results, and with every batch failed the collection
need not be empty. -/
theorem getMetricData_partial_batch_counterexample :
    (getMetricData [[Except.ok [MetricDataResult.mk "q1" [0] [1]], Except.error ()]]
        (CollectorTelemetry.mk 0 0)).1 = Except.ok [MetricDataResult.mk "q1" [0] [1]]
    ∧ (getMetricData [[Except.ok [MetricDataResult.mk "q1" [0] [1]], Except.error ()]]
        (CollectorTelemetry.mk 0 0)).2.errorCount = 1 :=
  ⟨rfl, rfl⟩

/-- C9 amended: `GetMetricData` always returns with a nil error; each failed
batch increments the error counter once and contributes exactly the pages it
fetched before its failure (zero when its first page fails, so all batches
failing at their first page yields an empty collection); pages of the other
batches are kept, not rolled back. -/
theorem getMetricData_aggregation_amended
    (batches : List (List (Except Unit (List MetricDataResult))))
    (tele : CollectorTelemetry) :
    (getMetricData batches tele).1 = Except.ok (batches.flatMap okPagesConcat)
    ∧ (getMetricData batches tele).2.errorCount
        = tele.errorCount + batches.countP (fun b => b.any pageIsErr) := by
  have h := getMetricDataAux_spec batches [] tele
  exact ⟨by simp only [getMetricData]; rw [h.1]; simp, by simpa [getMetricData] using h.2⟩

theorem chunkQueries_length {α : Type} (l : List α) :
    (chunkQueries l).length = (l.length + 499) / 500 := by
  induction l using chunkQueries.induct with
  | case1 => simp [chunkQueries]
  | case2 x xs ih =>
    simp only [chunkQueries, MaxMetricDataQueryItems, List.length_cons, List.length_take,
      List.length_drop] at *
    omega

theorem chunkQueries_flatten {α : Type} (l : List α) :
    (chunkQueries l).flatten = l := by
  induction l using chunkQueries.induct with
  | case1 => simp [chunkQueries]
  | case2 x xs ih =>
    simp only [chunkQueries, List.flatten_cons, ih, List.take_append_drop]

theorem chunkQueries_sizes {α : Type} (l : List α) :
    ∀ c ∈ chunkQueries l, c.length ≤ 500 := by
  induction l using chunkQueries.induct with
  | case1 => simp [chunkQueries]
  | case2 x xs ih =>
    intro c hc
    simp only [chunkQueries, List.mem_cons] at hc
    rcases hc with rfl | hc
    · simp [MaxMetricDataQueryItems]
    · exact ih c hc

/-- C2: `getMetricDataInput` batches the cycle's ordered query list into
exactly `ceil(N/500)` inputs (`(N+499)/500` in natural division; zero
inputs when `N = 0`), each with at most 500 queries, whose concatenation is
the original list, all sharing the one window `end = now - offset`,
`start = end - interval`; `MaxMetricDataQueryItems` is 500 and
`getMetricDataInput` is exactly this batching of `makeQueries`' output. -/
theorem getMetricDataInput_batching (qs : List MetricDataQuery)
    (offset interval now : Int) (resources : List (String × ResourceTagMapping))
    (stats : List MetricStat) (dim : ResourceTagMapping → Except Unit (List Dimension))
    (period : Int) (ns : String) :
    (chunkInputs qs offset interval now).length = (qs.length + 499) / 500
    ∧ (∀ input ∈ chunkInputs qs offset interval now,
        input.metricDataQueries.length ≤ 500)
    ∧ ((chunkInputs qs offset interval now).map
        GetMetricDataInput.metricDataQueries).flatten = qs
    ∧ (∀ input ∈ chunkInputs qs offset interval now,
        input.endTime = now - offset ∧ input.startTime = (now - offset) - interval)
    ∧ MaxMetricDataQueryItems = 500
    ∧ getMetricDataInput resources stats dim offset interval period ns now
        = (chunkInputs (makeQueries stats dim period ns resources).1 offset interval now,
           (makeQueries stats dim period ns resources).2) := by
  refine ⟨?_, ?_, ?_, ?_, rfl, rfl⟩
  · simp [chunkInputs, chunkQueries_length]
  · intro input hin
    simp only [chunkInputs, List.mem_map] at hin
    obtain ⟨c, hc, rfl⟩ := hin
    exact chunkQueries_sizes qs c hc
  · simp only [chunkInputs, List.map_map]
    have : (GetMetricDataInput.metricDataQueries ∘ fun c =>
        ({ endTime := now - offset, startTime := now - offset - interval,
           scanBy := TimestampAscending, metricDataQueries := c } : GetMetricDataInput))
        = id := rfl
    rw [this, List.map_id, chunkQueries_flatten]
  · intro input hin
    simp only [chunkInputs, List.mem_map] at hin
    obtain ⟨c, hc, rfl⟩ := hin
    exact ⟨rfl, rfl⟩

/-- C7 evaluation: the wired dimension functions panic (out-of-range slice
or index) on parseable ARNs whose resource component is malformed — shorter
than 75 characters for `asgMetricDimension`, fewer than three `:`-separated
parts for `cacheNodeMetricDimension` — while an unparseable ARN does take
the graceful error path, and a well-formed ARN succeeds. -/
theorem dimension_crash_eval :
    asgMetricDimension
        (ResourceTagMapping.mk "arn:aws:autoscaling:us-east-1:000000000000:short" [])
      = GoOutcome.crash
    ∧ cacheNodeMetricDimension
        (ResourceTagMapping.mk "arn:aws:elasticache:us-east-1:000000000000:cluster" [])
      = GoOutcome.crash
    ∧ asgMetricDimension (ResourceTagMapping.mk "broken" []) = GoOutcome.err
    ∧ asgMetricDimension
        (ResourceTagMapping.mk
          "arn:aws:autoscaling:us-east-1:000000000000:autoScalingGroup:aaaaaaaa-bbbb-cccc-dddd-eeeeeeeeeeee:autoScalingGroupName/my-asg-name"
          [])
      = GoOutcome.ok [Dimension.mk "AutoScalingGroupName" "my-asg-name"] := by
  refine ⟨?_, ?_, ?_, ?_⟩ <;> decide

theorem digitsVal_append_digit (l : List Char) (c : Char) :
    digitsVal (l ++ [c]) = (digitsVal l) * 10 + (c.toNat - 48) := by
  simp [digitsVal, List.foldl_append]

theorem digitsVal_natDigits (n : Nat) : digitsVal (natDigits n) = n := by
  induction n using natDigits.induct with
  | case1 n h =>
    have hc : (Char.ofNat (48 + n)).toNat = 48 + n := by
      revert h
      revert n
      decide
    simp [natDigits, h, digitsVal, hc]
  | case2 n h ih =>
    have hm : n % 10 < 10 := by omega
    have hc : ∀ m, m < 10 → (Char.ofNat (48 + m)).toNat = 48 + m := by decide
    rw [natDigits, if_neg h, digitsVal_append_digit, ih, hc (n % 10) hm]
    omega

theorem natDigits_inj : Function.Injective natDigits := by
  intro m n h
  rw [← digitsVal_natDigits m, ← digitsVal_natDigits n, h]

theorem underscore_not_mem_natDigits (n : Nat) : '_' ∉ natDigits n := by
  have hd : ∀ m, m < 10 → Char.ofNat (48 + m) ≠ '_' := by decide
  induction n using natDigits.induct with
  | case1 n h =>
    simp [natDigits, h]
    exact fun he => absurd he.symm (hd n h)
  | case2 n h ih =>
    rw [natDigits, if_neg h]
    intro hmem
    rcases List.mem_append.mp hmem with hm | hm
    · exact ih hm
    · rw [List.mem_singleton] at hm
      exact absurd hm.symm (hd (n % 10) (by omega))

theorem splitAtSep (c : Char) (a₁ : List Char) :
    ∀ (a₂ b₁ b₂ : List Char), c ∉ a₁ → c ∉ a₂ →
      a₁ ++ c :: b₁ = a₂ ++ c :: b₂ → a₁ = a₂ ∧ b₁ = b₂ := by
  induction a₁ with
  | nil =>
    intro a₂ b₁ b₂ _ h₂ heq
    cases a₂ with
    | nil => simpa using heq
    | cons y ys =>
      simp only [List.nil_append, List.cons_append, List.cons.injEq] at heq
      exact absurd (List.mem_cons_self y ys) (heq.1 ▸ h₂)
  | cons x xs ih =>
    intro a₂ b₁ b₂ h₁ h₂ heq
    cases a₂ with
    | nil =>
      simp only [List.cons_append, List.nil_append, List.cons.injEq] at heq
      exact absurd (heq.1 ▸ List.mem_cons_self x xs) h₁
    | cons y ys =>
      simp only [List.cons_append, List.cons.injEq] at heq
      have hx : c ∉ xs := fun hm => h₁ (List.mem_cons_of_mem x hm)
      have hy : c ∉ ys := fun hm => h₂ (List.mem_cons_of_mem y hm)
      have := ih ys b₁ b₂ hx hy heq.2
      exact ⟨by rw [heq.1, this.1], this.2⟩

theorem mkId_data (rid : String) (i : Nat) :
    (mkId rid i).data = 'i' :: 'd' :: '_' :: (rid.data ++ '_' :: natDigits i) := by
  simp [mkId, String.data_append]

theorem rev_sep (x y : List Char) (c : Char) :
    (x ++ c :: y).reverse = y.reverse ++ c :: x.reverse := by
  simp

theorem mkId_inj (r₁ r₂ : String) (i₁ i₂ : Nat) (h : mkId r₁ i₁ = mkId r₂ i₂) :
    r₁ = r₂ ∧ i₁ = i₂ := by
  have hd : (mkId r₁ i₁).data = (mkId r₂ i₂).data := by rw [h]
  rw [mkId_data, mkId_data] at hd
  simp only [List.cons.injEq, true_and] at hd
  have hrev : (natDigits i₁).reverse ++ '_' :: r₁.data.reverse
      = (natDigits i₂).reverse ++ '_' :: r₂.data.reverse := by
    rw [← rev_sep, ← rev_sep, hd]
  have hn₁ : '_' ∉ (natDigits i₁).reverse := by
    rw [List.mem_reverse]
    exact underscore_not_mem_natDigits i₁
  have hn₂ : '_' ∉ (natDigits i₂).reverse := by
    rw [List.mem_reverse]
    exact underscore_not_mem_natDigits i₂
  have hsp := splitAtSep '_' (natDigits i₁).reverse (natDigits i₂).reverse
    r₁.data.reverse r₂.data.reverse hn₁ hn₂ hrev
  have hi : i₁ = i₂ := natDigits_inj (List.reverse_injective hsp.1)
  have hr : r₁.data = r₂.data := List.reverse_injective hsp.2
  exact ⟨String.ext hr, hi⟩

theorem pairQueries_ids (rid : String) (r : ResourceTagMapping)
    (dim : ResourceTagMapping → Except Unit (List Dimension)) (period : Int) (ns : String)
    (ps : List (Nat × MetricStat)) :
    (pairQueries rid r dim period ns ps).1.map MetricDataQuery.id
      = match dim r with
        | .error _ => []
        | .ok _ => ps.map fun q => mkId rid q.1 := by
  induction ps with
  | nil => cases dim r <;> simp [pairQueries]
  | cons q rest ih =>
    obtain ⟨i, s⟩ := q
    cases hd : dim r with
    | error e =>
      rw [hd] at ih
      simp [pairQueries, hd, ih]
    | ok d =>
      rw [hd] at ih
      simp [pairQueries, hd, ih]

theorem makeQueries_ids_formula (stats : List MetricStat)
    (dim : ResourceTagMapping → Except Unit (List Dimension)) (period : Int) (ns : String)
    (resources : List (String × ResourceTagMapping)) :
    (makeQueries stats dim period ns resources).1.map MetricDataQuery.id
      = resources.flatMap fun p =>
          match dim p.2 with
          | .error _ => []
          | .ok _ => (List.range stats.length).map (mkId p.1) := by
  induction resources with
  | nil => simp [makeQueries]
  | cons p rest ih =>
    obtain ⟨rid, r⟩ := p
    simp only [makeQueries, List.map_append, ih, List.flatMap_cons]
    congr 1
    rw [pairQueries_ids]
    cases hd : dim r with
    | error e => simp
    | ok d =>
      have he : (fun (q : Nat × MetricStat) => mkId rid q.1) = (mkId rid ∘ Prod.fst) := rfl
      rw [he, ← List.map_map, List.enum_map_fst]

theorem block_mem_mkId (stats : List MetricStat)
    (dim : ResourceTagMapping → Except Unit (List Dimension))
    (p : String × ResourceTagMapping) (x : String) :
    x ∈ (match dim p.2 with
         | .error _ => ([] : List String)
         | .ok _ => (List.range stats.length).map (mkId p.1)) →
    ∃ i, i < stats.length ∧ x = mkId p.1 i := by
  cases dim p.2 with
  | error e => intro hx; simp at hx
  | ok d =>
    intro hx
    obtain ⟨i, hi, rfl⟩ := List.mem_map.mp hx
    exact ⟨i, List.mem_range.mp hi, rfl⟩

theorem ids_formula_nodup (stats : List MetricStat)
    (dim : ResourceTagMapping → Except Unit (List Dimension))
    (resources : List (String × ResourceTagMapping))
    (hkeys : (resources.map Prod.fst).Nodup) :
    (resources.flatMap fun p =>
        match dim p.2 with
        | .error _ => []
        | .ok _ => (List.range stats.length).map (mkId p.1)).Nodup := by
  induction resources with
  | nil => simp
  | cons p rest ih =>
    simp only [List.map_cons, List.nodup_cons] at hkeys
    obtain ⟨hp, hrest⟩ := hkeys
    simp only [List.flatMap_cons]
    apply List.Nodup.append
    · cases dim p.2 with
      | error e => simp
      | ok d =>
        apply List.Nodup.map
        · intro i₁ i₂ hi
          exact (mkId_inj p.1 p.1 i₁ i₂ hi).2
        · exact List.nodup_range _
    · exact ih hrest
    · intro x hx hx'
      obtain ⟨i, _, rfl⟩ := block_mem_mkId stats dim p x hx
      obtain ⟨p', hp', hxp'⟩ := List.mem_flatMap.mp hx'
      obtain ⟨i', _, heq⟩ := block_mem_mkId stats dim p' (mkId p.1 i) hxp'
      have hinj := mkId_inj p.1 p'.1 i i' heq
      exact hp (hinj.1 ▸ List.mem_map_of_mem Prod.fst hp')

/-- C8: per resource of the index (association list keyed by resource id,
keys distinct as Go map keys are) and per configured metric/stat pair at
position `i` with a derivable dimension, `makeQueries` emits exactly one
query with id `id_<resourceId>_<i>`; the emitted id list is duplicate-free
(ids are unique per distinct (resource, pair-index) pair), and it is a
function of the resource keys, the configured pair count and the dimension
outcomes alone — identical inputs give identical ids on every run. -/
theorem makeQueries_id_spec (stats : List MetricStat)
    (dim : ResourceTagMapping → Except Unit (List Dimension)) (period : Int) (ns : String)
    (resources : List (String × ResourceTagMapping))
    (hkeys : (resources.map Prod.fst).Nodup) :
    ((makeQueries stats dim period ns resources).1.map MetricDataQuery.id
      = resources.flatMap fun p =>
          match dim p.2 with
          | .error _ => []
          | .ok _ => (List.range stats.length).map (mkId p.1))
    ∧ ((makeQueries stats dim period ns resources).1.map MetricDataQuery.id).Nodup
    ∧ (∀ p ∈ resources, ∀ i < stats.length, ∀ d, dim p.2 = Except.ok d →
        ((makeQueries stats dim period ns resources).1.map MetricDataQuery.id).count
          (mkId p.1 i) = 1) := by
  have hform := makeQueries_ids_formula stats dim period ns resources
  have hnd := ids_formula_nodup stats dim resources hkeys
  refine ⟨hform, by rw [hform]; exact hnd, ?_⟩
  intro p hp i hi d hd
  rw [hform]
  apply List.count_eq_one_of_mem hnd
  apply List.mem_flatMap.mpr
  refine ⟨p, hp, ?_⟩
  rw [hd]
  exact List.mem_map_of_mem (mkId p.1) (List.mem_range.mpr hi)

/-- C8 witness: two resources with distinct ids and two configured pairs,
every dimension derivable. -/
theorem makeQueries_id_spec_witness :
    ((makeQueries [MetricStat.mk "M1" "Sum", MetricStat.mk "M2" "Average"]
        (fun _ => Except.ok [Dimension.mk "VolumeId" "vol-A"]) 300 "AWS/EBS"
        [("a", ResourceTagMapping.mk "arnA" []),
         ("b", ResourceTagMapping.mk "arnB" [])]).1.map MetricDataQuery.id
      = [("a", ResourceTagMapping.mk "arnA" []),
         ("b", ResourceTagMapping.mk "arnB" [])].flatMap fun p =>
            (List.range 2).map (mkId p.1))
    ∧ ((makeQueries [MetricStat.mk "M1" "Sum", MetricStat.mk "M2" "Average"]
        (fun _ => Except.ok [Dimension.mk "VolumeId" "vol-A"]) 300 "AWS/EBS"
        [("a", ResourceTagMapping.mk "arnA" []),
         ("b", ResourceTagMapping.mk "arnB" [])]).1.map MetricDataQuery.id).Nodup
    ∧ (∀ p ∈ [("a", ResourceTagMapping.mk "arnA" []),
              ("b", ResourceTagMapping.mk "arnB" [])], ∀ i < 2, ∀ d,
        (Except.ok [Dimension.mk "VolumeId" "vol-A"] : Except Unit (List Dimension)) = Except.ok d →
        ((makeQueries [MetricStat.mk "M1" "Sum", MetricStat.mk "M2" "Average"]
            (fun _ => Except.ok [Dimension.mk "VolumeId" "vol-A"]) 300 "AWS/EBS"
            [("a", ResourceTagMapping.mk "arnA" []),
             ("b", ResourceTagMapping.mk "arnB" [])]).1.map MetricDataQuery.id).count
          (mkId p.1 i) = 1) :=
  makeQueries_id_spec [MetricStat.mk "M1" "Sum", MetricStat.mk "M2" "Average"]
    (fun _ => Except.ok [Dimension.mk "VolumeId" "vol-A"]) 300 "AWS/EBS"
    [("a", ResourceTagMapping.mk "arnA" []), ("b", ResourceTagMapping.mk "arnB" [])]
    (by decide)
